import Mathlib

/-!
# Verification of the session and live-state layer of `gui_tool`

Shallow embedding of the core session logic of `src/uavcan_gui_tool/main.py`
(the `request` / `broadcast` / `subscribe` console primitives and the spin
scheduler) and of the live-state cache `JigMonitor` of
`src/uavcan_gui_tool/panels/jig_panel.py`, together with proofs and
refutations of the specification's claims about them.

Modelling conventions:

* Time is `ℚ` (values of Python's `time.monotonic()` and the second-valued
  durations of the source).
* The transport (`self._node`, the vendored `uavcan` library, not part of
  the shown sources) is modelled through the state it keeps for this layer:
  whether a message handler registration is present, whether a deferred or
  periodic timer registration is pending.  Its `Handle.remove()` raises when
  the registration is no longer present — this is exactly the behaviour the
  source relies on (`cancel_callback` wraps `sub_handle.remove()` in
  `try/except/else`, and `process_callback` wraps `timer_handle.remove()` in
  `try/except: pass`); the vendored library exposes `remove` (raising) next
  to `try_remove` (non-raising).  A raising `remove()` performs no state
  change, so in the state-transition model it is the identity.
* Caller-supplied callbacks are modelled by their observable outcome: a
  delivery event carries whether `callback` returned normally or raised, and
  the model counts invocations of `callback` and of `on_end`.
-/

namespace GuiTool

/-! ## Subscription jobs (`subscribe`, main.py lines 225–281)

`subscribe(uavcan_type, callback, count, duration, on_end)` validates the
argument combination, registers `process_callback` as a message handler,
and, when `duration` is given, defers `cancel_callback` by `duration`.
It returns the raw handler registration handle `sub_handle`. -/

/-- Arguments of one `subscribe` call that the control flow depends on:
the `count` argument (`None` or an integer), whether `duration` was given,
and whether `on_end` was given. -/
structure SubCfg where
  count : Option Int
  hasDuration : Bool
  hasOnEnd : Bool
  deriving Repr, DecidableEq

/-- State of the deferred duration timer of a subscription:
`noTimer` when `duration` was not given (the Python variable
`timer_handle` is `None`), `pending` while the deferred cancel-callback is
registered, `gone` once it fired or was removed. -/
inductive TimerSt where
  | noTimer
  | pending
  | gone
  deriving Repr, DecidableEq

/-- Observable state of one subscription job: the mutable nonlocal `count`,
whether the `sub_handle` message-handler registration is still present
(`registered = false` is the TERMINATED job state: no further deliveries can
happen), the deferred-timer state, and invocation counters for the
caller-supplied `callback` and `on_end`. -/
structure SubSt where
  count : Option Int
  registered : Bool
  timer : TimerSt
  onEndCalls : Nat
  cbCalls : Nat
  deriving Repr, DecidableEq

/-- Events a subscription job can experience: delivery of one matching
message (`ok` records whether the user callback returned normally or
raised), the firing of the deferred duration timer, and a manual
`remove()` on the handle returned by `subscribe`. -/
inductive SubEv where
  | deliver (ok : Bool)
  | timerFire
  | manualRemove
  deriving Repr, DecidableEq

/-- Validation of `subscribe` arguments (main.py 239–241): raise iff
`count is None and duration is None` and `on_end is not None`. -/
def subscribeValidationFails (cfg : SubCfg) : Bool :=
  cfg.count = none && !cfg.hasDuration && cfg.hasOnEnd

/-- Job state right after a successful `subscribe` call (main.py 277–281):
handler registered, deferred cancel pending iff `duration` was given,
no callback has run yet. -/
def initSub (cfg : SubCfg) : SubSt :=
  { count := cfg.count
    registered := true
    timer := if cfg.hasDuration then TimerSt.pending else TimerSt.noTimer
    onEndCalls := 0
    cbCalls := 0 }

/-- The `subscribe` call itself: validation, then the initial job state. -/
def subscribeCall (cfg : SubCfg) : Except String SubSt :=
  if subscribeValidationFails cfg then
    Except.error "on_end is set, but it will never be called"
  else
    Except.ok (initSub cfg)

/-- The `stop_now` branch shared by both termination paths of
`process_callback` (main.py 259–266): `sub_handle.remove()` (the handler is
registered, since a delivery just happened), `try: timer_handle.remove()
except: pass` (cancels the deferred if pending; `AttributeError` on `None`
and `ValueError` on an absent registration are both swallowed), then
`on_end()` if it was given. -/
def subStopNow (cfg : SubCfg) (s : SubSt) : SubSt :=
  { s with
    registered := false
    timer := if s.timer = TimerSt.pending then TimerSt.gone else s.timer
    onEndCalls := s.onEndCalls + (if cfg.hasOnEnd then 1 else 0) }

/-- The handler `process_callback(e)` (main.py 245–266), run when a message is
delivered to the still-registered handler.  The user callback is invoked
(counted); on an exception the job stops now; on normal return, if `count`
is set it is decremented and the job stops when it drops to `≤ 0`. -/
def process_callback (cfg : SubCfg) (ok : Bool) (s : SubSt) : SubSt :=
  let s := { s with cbCalls := s.cbCalls + 1 }
  if ok then
    match s.count with
    | none => s
    | some c =>
        let s := { s with count := some (c - 1) }
        if c - 1 ≤ 0 then subStopNow cfg s else s
  else
    subStopNow cfg s

/-- The deferred `cancel_callback()` (main.py 268–275), run when the deferred duration
timer fires: `try: sub_handle.remove() except: pass else: on_end()`.
If the handler is still registered the removal succeeds and `on_end` runs;
otherwise the removal raises and `on_end` is skipped. -/
def cancel_callback (cfg : SubCfg) (s : SubSt) : SubSt :=
  if s.registered then
    { s with
      registered := false
      onEndCalls := s.onEndCalls + (if cfg.hasOnEnd then 1 else 0) }
  else
    s

/-- One step of a subscription job.  A delivery only happens while the
handler is registered; the deferred timer only fires while it is pending
(firing consumes the single-shot registration before `cancel_callback`
runs); a manual `remove()` on the returned `sub_handle` unregisters the
handler when present and raises (changing nothing) otherwise. -/
def stepSub (cfg : SubCfg) (s : SubSt) (ev : SubEv) : SubSt :=
  match ev with
  | SubEv.deliver ok => if s.registered then process_callback cfg ok s else s
  | SubEv.timerFire =>
      if s.timer = TimerSt.pending then
        cancel_callback cfg { s with timer := TimerSt.gone }
      else s
  | SubEv.manualRemove => if s.registered then { s with registered := false } else s

/-- A subscription job run over a sequence of events. -/
def runSub (cfg : SubCfg) (s : SubSt) (evs : List SubEv) : SubSt :=
  evs.foldl (stepSub cfg) s

/-! ### The at-most-once invariant for `on_end` -/

/-- Inductive invariant behind the `on_end` claims: while the handler is
still registered `on_end` has never run, and it never runs twice. -/
def SubOnEndInv (s : SubSt) : Prop :=
  (s.registered = true → s.onEndCalls = 0) ∧ s.onEndCalls ≤ 1

theorem subOnEndInv_init (cfg : SubCfg) : SubOnEndInv (initSub cfg) := by
  constructor <;> simp [initSub]

/-- A subscription handler registration is never re-established: once
`registered` is false it stays false. -/
theorem stepSub_registered_mono (cfg : SubCfg) (s : SubSt) (ev : SubEv)
    (h : (stepSub cfg s ev).registered = true) : s.registered = true := by
  by_cases hr : s.registered = true
  · exact hr
  · exfalso
    simp only [Bool.not_eq_true] at hr
    cases ev with
    | deliver ok => simp [stepSub, hr] at h
    | timerFire =>
        by_cases ht : s.timer = TimerSt.pending
        · simp [stepSub, ht, cancel_callback, hr] at h
        · simp [stepSub, ht, hr] at h
    | manualRemove => simp [stepSub, hr] at h

/-- Step dichotomy for `on_end`: every step either leaves the `on_end`
invocation count unchanged, or it is the transition that unregisters the
handler (ACTIVE → TERMINATED) and adds exactly one invocation. -/
theorem stepSub_onEnd_cases (cfg : SubCfg) (s : SubSt) (ev : SubEv) :
    (stepSub cfg s ev).onEndCalls = s.onEndCalls ∨
      (s.registered = true ∧ (stepSub cfg s ev).registered = false ∧
        (stepSub cfg s ev).onEndCalls = s.onEndCalls + 1) := by
  cases ev with
  | deliver ok =>
      by_cases hr : s.registered = true
      · cases ok with
        | true =>
            cases hc : s.count with
            | none => left; simp [stepSub, hr, process_callback, hc]
            | some c =>
                by_cases hstop : c - 1 ≤ 0
                · cases he : cfg.hasOnEnd with
                  | false =>
                      left
                      simp [stepSub, hr, process_callback, hc, hstop,
                        subStopNow, he]
                  | true =>
                      right
                      refine ⟨hr, ?_, ?_⟩ <;>
                        simp [stepSub, hr, process_callback, hc, hstop,
                          subStopNow, he]
                · left; simp [stepSub, hr, process_callback, hc, hstop]
        | false =>
            cases he : cfg.hasOnEnd with
            | false =>
                left; simp [stepSub, hr, process_callback, subStopNow, he]
            | true =>
                right
                refine ⟨hr, ?_, ?_⟩ <;>
                  simp [stepSub, hr, process_callback, subStopNow, he]
      · left; simp [stepSub, hr]
  | timerFire =>
      by_cases ht : s.timer = TimerSt.pending
      · by_cases hr : s.registered = true
        · cases he : cfg.hasOnEnd with
          | false => left; simp [stepSub, ht, cancel_callback, hr, he]
          | true =>
              right
              refine ⟨hr, ?_, ?_⟩ <;>
                simp [stepSub, ht, cancel_callback, hr, he]
        · left; simp [stepSub, ht, cancel_callback, hr]
      · left; simp [stepSub, ht]
  | manualRemove =>
      by_cases hr : s.registered = true
      · left; simp [stepSub, hr]
      · left; simp [stepSub, hr]

theorem subOnEndInv_step (cfg : SubCfg) (s : SubSt) (ev : SubEv)
    (h : SubOnEndInv s) : SubOnEndInv (stepSub cfg s ev) := by
  obtain ⟨h₁, h₂⟩ := h
  rcases stepSub_onEnd_cases cfg s ev with heq | ⟨hreg, hregF, hplus⟩
  · refine ⟨fun hreg' => ?_, heq ▸ h₂⟩
    rw [heq]
    exact h₁ (stepSub_registered_mono cfg s ev hreg')
  · refine ⟨fun hreg' => ?_, ?_⟩
    · rw [hregF] at hreg'
      exact absurd hreg' (by simp)
    · rw [hplus, h₁ hreg]

theorem subOnEndInv_run (cfg : SubCfg) (evs : List SubEv) (s : SubSt)
    (h : SubOnEndInv s) : SubOnEndInv (runSub cfg s evs) := by
  induction evs generalizing s with
  | nil => exact h
  | cons ev evs ih => exact ih _ (subOnEndInv_step cfg s ev h)

/-- Any step that changes the `on_end` invocation count is exactly the
transition that unregisters the handler (ACTIVE → TERMINATED), and it adds
exactly one invocation. -/
theorem subOnEnd_only_on_transition (cfg : SubCfg) (s : SubSt) (ev : SubEv)
    (h : (stepSub cfg s ev).onEndCalls ≠ s.onEndCalls) :
    s.registered = true ∧ (stepSub cfg s ev).registered = false ∧
      (stepSub cfg s ev).onEndCalls = s.onEndCalls + 1 := by
  rcases stepSub_onEnd_cases cfg s ev with heq | hright
  · exact absurd heq h
  · exact hright

/-- Claim C1: For every subscription created by `subscribe` with `on_end`
set (hence, by validation, with `count` or `duration` set), across every
sequence of events — deliveries with succeeding or failing callbacks,
duration-timer expiry, manual `remove()`, in any order — `on_end` is
invoked at most once, and any step that invokes it is exactly the
transition of the job from ACTIVE (handler registered) to TERMINATED
(handler unregistered).  In particular, after count-based termination has
invoked `on_end` (and cancelled the pending deferred timer), a later timer
event cannot invoke it again. -/
theorem onEnd_at_most_once_and_only_on_termination (cfg : SubCfg) (s0 : SubSt)
    (hOnEnd : cfg.hasOnEnd = true)
    (hInit : subscribeCall cfg = Except.ok s0) (evs : List SubEv) :
    (runSub cfg s0 evs).onEndCalls ≤ 1 ∧
      (∀ ev : SubEv,
        (stepSub cfg (runSub cfg s0 evs) ev).onEndCalls ≠
            (runSub cfg s0 evs).onEndCalls →
          (runSub cfg s0 evs).registered = true ∧
            (stepSub cfg (runSub cfg s0 evs) ev).registered = false ∧
            (stepSub cfg (runSub cfg s0 evs) ev).onEndCalls =
              (runSub cfg s0 evs).onEndCalls + 1) := by
  have hs0 : s0 = initSub cfg := by
    by_cases hv : subscribeValidationFails cfg <;>
      simp [subscribeCall, hv] at hInit
    exact hInit.symm
  subst hs0
  refine ⟨(subOnEndInv_run cfg evs _ (subOnEndInv_init cfg)).2, ?_⟩
  intro ev h
  exact subOnEnd_only_on_transition cfg _ ev h

/-- Witness for C1: a count-1 subscription with a duration and an
`on_end`; one successful delivery terminates it and fires `on_end` once,
and the subsequent firing of the duration timer does not fire it again. -/
theorem onEnd_at_most_once_witness :
    ({ count := some 1, hasDuration := true, hasOnEnd := true } : SubCfg).hasOnEnd
        = true ∧
      (runSub { count := some 1, hasDuration := true, hasOnEnd := true }
          (initSub { count := some 1, hasDuration := true, hasOnEnd := true })
          [SubEv.deliver true, SubEv.timerFire]).onEndCalls ≤ 1 := by
  refine ⟨rfl, ?_⟩
  exact (onEnd_at_most_once_and_only_on_termination
      { count := some 1, hasDuration := true, hasOnEnd := true }
      (initSub { count := some 1, hasDuration := true, hasOnEnd := true })
      rfl rfl [SubEv.deliver true, SubEv.timerFire]).1

/-! ### The count-bounded callback invariant -/

/-- Inductive invariant for a subscription created with `count = n`:
the user callback has run at most `n` times; while the handler is still
registered the remaining `count` is exactly `n` minus the invocations so
far, is still positive, and `on_end` has not run; and once the callback
has run `n` times the job is terminated — handler unregistered, deferred
cancel no longer pending — with `on_end` having run exactly once if set. -/
def SubCountInv (cfg : SubCfg) (n : Int) (s : SubSt) : Prop :=
  (s.cbCalls : Int) ≤ n ∧
    (s.registered = true →
      s.count = some (n - s.cbCalls) ∧ (s.cbCalls : Int) < n ∧ s.onEndCalls = 0) ∧
    ((s.cbCalls : Int) = n →
      s.registered = false ∧ s.timer ≠ TimerSt.pending ∧
        s.onEndCalls = (if cfg.hasOnEnd then 1 else 0))

theorem subStopNow_registered (cfg : SubCfg) (s : SubSt) :
    (subStopNow cfg s).registered = false := rfl

theorem subStopNow_cbCalls (cfg : SubCfg) (s : SubSt) :
    (subStopNow cfg s).cbCalls = s.cbCalls := rfl

theorem subStopNow_onEndCalls (cfg : SubCfg) (s : SubSt) :
    (subStopNow cfg s).onEndCalls =
      s.onEndCalls + (if cfg.hasOnEnd then 1 else 0) := rfl

theorem subStopNow_timer_ne_pending (cfg : SubCfg) (s : SubSt) :
    (subStopNow cfg s).timer ≠ TimerSt.pending := by
  simp only [subStopNow]
  split
  · simp
  · next h => simpa using h

theorem subCountInv_init (cfg : SubCfg) (n : Int) (hn : 1 ≤ n)
    (hcount : cfg.count = some n) : SubCountInv cfg n (initSub cfg) := by
  refine ⟨?_, fun _ => ⟨?_, ?_, rfl⟩, fun h => ?_⟩
  · simp [initSub]
    omega
  · simp [initSub, hcount]
  · simp [initSub]
    omega
  · exfalso
    simp [initSub] at h
    omega

/-- Shape of a delivery step on a registered handler whose callback
returns normally while `count` is set and drops to `≤ 0`. -/
theorem stepSub_deliver_ok_stop (cfg : SubCfg) (s : SubSt) (c : Int)
    (hr : s.registered = true) (hc : s.count = some c) (hstop : c - 1 ≤ 0) :
    stepSub cfg s (SubEv.deliver true) =
      subStopNow cfg { s with cbCalls := s.cbCalls + 1, count := some (c - 1) } := by
  simp [stepSub, hr, process_callback, hc, hstop]

/-- Shape of a delivery step on a registered handler whose callback
returns normally while `count` is set and stays positive. -/
theorem stepSub_deliver_ok_go (cfg : SubCfg) (s : SubSt) (c : Int)
    (hr : s.registered = true) (hc : s.count = some c) (hgo : ¬c - 1 ≤ 0) :
    stepSub cfg s (SubEv.deliver true) =
      { s with cbCalls := s.cbCalls + 1, count := some (c - 1) } := by
  simp [stepSub, hr, process_callback, hc, hgo]

/-- Shape of a delivery step on a registered handler whose callback
raises. -/
theorem stepSub_deliver_fail (cfg : SubCfg) (s : SubSt)
    (hr : s.registered = true) :
    stepSub cfg s (SubEv.deliver false) =
      subStopNow cfg { s with cbCalls := s.cbCalls + 1 } := by
  simp [stepSub, hr, process_callback]

theorem subCountInv_step (cfg : SubCfg) (n : Int) (s : SubSt) (ev : SubEv)
    (h : SubCountInv cfg n s) : SubCountInv cfg n (stepSub cfg s ev) := by
  obtain ⟨hle, hreg, hdone⟩ := h
  cases ev with
  | deliver ok =>
      by_cases hr : s.registered = true
      · obtain ⟨hc, hlt, h0⟩ := hreg hr
        cases ok with
        | true =>
            by_cases hstop : n - (s.cbCalls : Int) - 1 ≤ 0
            · rw [stepSub_deliver_ok_stop cfg s _ hr hc hstop]
              refine ⟨?_, ?_, fun _ => ⟨?_, ?_, ?_⟩⟩
              · rw [subStopNow_cbCalls]
                push_cast
                omega
              · rw [subStopNow_registered]
                intro hcon
                exact absurd hcon (by simp)
              · exact subStopNow_registered cfg _
              · exact subStopNow_timer_ne_pending cfg _
              · rw [subStopNow_onEndCalls]
                simp [h0]
            · rw [stepSub_deliver_ok_go cfg s _ hr hc hstop]
              refine ⟨?_, fun _ => ⟨?_, ?_, ?_⟩, fun hcb => ?_⟩
              · show ((s.cbCalls + 1 : Nat) : Int) ≤ n
                push_cast
                omega
              · show some (n - (s.cbCalls : Int) - 1) =
                  some (n - ((s.cbCalls + 1 : Nat) : Int))
                congr 1
                push_cast
                ring
              · show ((s.cbCalls + 1 : Nat) : Int) < n
                push_cast
                omega
              · exact h0
              · exfalso
                have hcb' : ((s.cbCalls + 1 : Nat) : Int) = n := hcb
                push_cast at hcb'
                omega
        | false =>
            rw [stepSub_deliver_fail cfg s hr]
            refine ⟨?_, ?_, fun _ => ⟨?_, ?_, ?_⟩⟩
            · rw [subStopNow_cbCalls]
              push_cast
              omega
            · rw [subStopNow_registered]
              intro hcon
              exact absurd hcon (by simp)
            · exact subStopNow_registered cfg _
            · exact subStopNow_timer_ne_pending cfg _
            · rw [subStopNow_onEndCalls]
              simp [h0]
      · simp only [Bool.not_eq_true] at hr
        simp only [stepSub, hr, Bool.false_eq_true, if_false]
        exact ⟨hle, hreg, hdone⟩
  | timerFire =>
      by_cases ht : s.timer = TimerSt.pending
      · by_cases hr : s.registered = true
        · obtain ⟨hc, hlt, h0⟩ := hreg hr
          refine ⟨?_, ?_, fun hcb => ?_⟩
          · simpa [stepSub, ht, cancel_callback, hr] using hle
          · simp [stepSub, ht, cancel_callback, hr]
          · exfalso
            simp [stepSub, ht, cancel_callback, hr] at hcb
            omega
        · simp only [Bool.not_eq_true] at hr
          refine ⟨?_, ?_, fun hcb => ?_⟩
          · simpa [stepSub, ht, cancel_callback, hr] using hle
          · simp [stepSub, ht, cancel_callback, hr]
          · have hcb' : (s.cbCalls : Int) = n := by
              simpa [stepSub, ht, cancel_callback, hr] using hcb
            refine ⟨?_, ?_, ?_⟩
            · simp [stepSub, ht, cancel_callback, hr]
            · simp [stepSub, ht, cancel_callback, hr]
            · simpa [stepSub, ht, cancel_callback, hr] using (hdone hcb').2.2
      · simp only [stepSub, ht, if_neg, if_false]
        exact ⟨hle, hreg, hdone⟩
  | manualRemove =>
      by_cases hr : s.registered = true
      · obtain ⟨hc, hlt, h0⟩ := hreg hr
        refine ⟨?_, ?_, fun hcb => ?_⟩
        · simpa [stepSub, hr] using hle
        · simp [stepSub, hr]
        · exfalso
          simp [stepSub, hr] at hcb
          omega
      · simp only [Bool.not_eq_true] at hr
        simp only [stepSub, hr, Bool.false_eq_true, if_false]
        exact ⟨hle, hreg, hdone⟩

theorem subCountInv_run (cfg : SubCfg) (n : Int) (evs : List SubEv) (s : SubSt)
    (h : SubCountInv cfg n s) : SubCountInv cfg n (runSub cfg s evs) := by
  induction evs generalizing s with
  | nil => exact h
  | cons ev evs ih => exact ih _ (subCountInv_step cfg n s ev h)

/-- Claim C7: For every subscription created by `subscribe` with
`count = n`, `n ≥ 1`, the user callback is invoked at most `n` times over
the subscription's lifetime — whatever deliveries, callback failures,
duration-timer firings and manual removes occur — and once it has been
invoked `n` times the job is terminated: the handler is unregistered, no
deferred cancel is still pending, and `on_end`, if set, has run exactly
once. -/
theorem subscribe_count_at_most (cfg : SubCfg) (n : Int) (s0 : SubSt)
    (hn : 1 ≤ n) (hcount : cfg.count = some n)
    (hInit : subscribeCall cfg = Except.ok s0) (evs : List SubEv) :
    ((runSub cfg s0 evs).cbCalls : Int) ≤ n ∧
      (((runSub cfg s0 evs).cbCalls : Int) = n →
        (runSub cfg s0 evs).registered = false ∧
          (runSub cfg s0 evs).timer ≠ TimerSt.pending ∧
          (runSub cfg s0 evs).onEndCalls = (if cfg.hasOnEnd then 1 else 0)) := by
  have hs0 : s0 = initSub cfg := by
    by_cases hv : subscribeValidationFails cfg <;>
      simp [subscribeCall, hv] at hInit
    exact hInit.symm
  subst hs0
  obtain ⟨h1, _, h3⟩ :=
    subCountInv_run cfg n evs (initSub cfg) (subCountInv_init cfg n hn hcount)
  exact ⟨h1, h3⟩

/-- Witness for C7: a count-2 subscription with `on_end`; two successful
deliveries exhaust the count. -/
theorem subscribe_count_witness :
    ((runSub { count := some 2, hasDuration := false, hasOnEnd := true }
        (initSub { count := some 2, hasDuration := false, hasOnEnd := true })
        [SubEv.deliver true, SubEv.deliver true]).cbCalls : Int) ≤ 2 :=
  (subscribe_count_at_most
      { count := some 2, hasDuration := false, hasOnEnd := true } 2
      (initSub { count := some 2, hasDuration := false, hasOnEnd := true })
      (by decide) rfl rfl [SubEv.deliver true, SubEv.deliver true]).1

/-! ### Manual `remove()` on the handle returned by `subscribe`

`subscribe` returns `sub_handle` — the raw message-handler registration
handle (main.py 281) — not a composite job handle.  Its `remove()`
unregisters the handler and nothing else. -/

/-- Claim C2, counterexample: The claim asserts that `remove()` on the
handle returned by `subscribe`, called while the job is ACTIVE on a
subscription with a `duration` and an `on_end`, cancels the pending
deferred cancel-callback and invokes `on_end`.  On the concrete
subscription `subscribe(t, duration=d, on_end=f)` (validated: it has a
termination condition), a manual `remove()` from the initial state leaves
the deferred cancel still pending and `on_end` never invoked — refuting
both asserted effects. -/
theorem subscribe_remove_counterexample :
    subscribeCall { count := none, hasDuration := true, hasOnEnd := true } =
        Except.ok (initSub { count := none, hasDuration := true, hasOnEnd := true }) ∧
      (initSub { count := none, hasDuration := true, hasOnEnd := true }).registered
          = true ∧
      (stepSub { count := none, hasDuration := true, hasOnEnd := true }
          (initSub { count := none, hasDuration := true, hasOnEnd := true })
          SubEv.manualRemove).registered = false ∧
      (stepSub { count := none, hasDuration := true, hasOnEnd := true }
          (initSub { count := none, hasDuration := true, hasOnEnd := true })
          SubEv.manualRemove).timer = TimerSt.pending ∧
      (stepSub { count := none, hasDuration := true, hasOnEnd := true }
          (initSub { count := none, hasDuration := true, hasOnEnd := true })
          SubEv.manualRemove).onEndCalls = 0 :=
  ⟨rfl, rfl, by decide, by decide, by decide⟩

/-- Claim C2 as amended: Calling `remove()` on the handle returned by
`subscribe` while the job is ACTIVE unregisters the transport message
handler and does nothing else: the pending deferred duration
cancel-callback is *not* cancelled and `on_end` is *not* invoked.
Calling `remove()` again, or after the job already terminated, changes no
state.  When the still-pending deferred cancel later fires on the
terminated job, it only consumes its single-shot registration: the
handler removal inside `cancel_callback` raises, so `on_end` is again not
invoked. -/
theorem subscribe_remove_unregisters_only (cfg : SubCfg) (s : SubSt)
    (hreg : s.registered = true) :
    stepSub cfg s SubEv.manualRemove = { s with registered := false } ∧
      (∀ s' : SubSt, s'.registered = false →
        stepSub cfg s' SubEv.manualRemove = s') ∧
      (∀ s' : SubSt, s'.registered = false → s'.timer = TimerSt.pending →
        stepSub cfg s' SubEv.timerFire = { s' with timer := TimerSt.gone }) := by
  refine ⟨by simp [stepSub, hreg], fun s' h => by simp [stepSub, h], ?_⟩
  intro s' h ht
  simp [stepSub, ht, cancel_callback, h]

/-- Witness for the amended C2: the concrete duration-and-`on_end`
subscription of the counterexample, removed from its initial (ACTIVE)
state. -/
theorem subscribe_remove_unregisters_only_witness :
    stepSub { count := none, hasDuration := true, hasOnEnd := true }
        (initSub { count := none, hasDuration := true, hasOnEnd := true })
        SubEv.manualRemove =
      { initSub { count := none, hasDuration := true, hasOnEnd := true } with
          registered := false } :=
  (subscribe_remove_unregisters_only
      { count := none, hasDuration := true, hasOnEnd := true }
      (initSub { count := none, hasDuration := true, hasOnEnd := true })
      rfl).1

/-! ## Broadcast jobs (`broadcast`, main.py lines 156–223)

`broadcast(payload, priority, interval, count, duration)` validates the
argument combination, checks the anonymous-node precondition, sends once
immediately (`do_broadcast()`), and, when `interval` is given, registers
`process_next` as a periodic callback and returns its handle.  Time is the
value of `time.monotonic()`; the scheduler invokes `process_next` at tick
times we quantify over. -/

/-- Errors `broadcast` can raise synchronously: the termination-condition
configuration error (main.py 191–192), the anonymous-node error raised by
`throw_if_anonymous` (main.py 132–136), and a failure of the immediate
`do_broadcast()` (uncaught at main.py 200, so it propagates to the
caller). -/
inductive BcastErr where
  | configError
  | anonymousError
  | sendError
  deriving Repr, DecidableEq

/-- Arguments of one `broadcast` call that the control flow depends on. -/
structure BcastCfg where
  priority : Option Int
  hasInterval : Bool
  count : Option Int
  duration : Option ℚ
  deriving Repr, DecidableEq

/-- The constant `default_transfer_priority` (main.py 123). -/
def default_transfer_priority : Int := 30

/-- Python's `x or d` for an optional integer `x`: `d` when `x` is `None`
**or zero** (zero is falsy), `x` otherwise. -/
def pyOrInt (x : Option Int) (d : Int) : Int :=
  match x with
  | none => d
  | some v => if v = 0 then d else v

/-- The priority `do_broadcast` passes to the transport:
`priority or default_transfer_priority` (main.py 198). -/
def do_broadcast_priority (cfg : BcastCfg) : Int :=
  pyOrInt cfg.priority default_transfer_priority

/-- The pseudo-unbounded default duration substituted when `duration` is
`None` (main.py 205): `3600 * 24 * 365 * 1000` seconds. -/
def NO_DURATION_SECONDS : ℚ := 3600 * 24 * 365 * 1000

/-- State of a background broadcast job: the nonlocal `num_broadcasted`
counter, whether the periodic `process_next` registration is still present
(`active = false` is the TERMINATED state), the times of all successful
sends of the payload so far (the immediate one included), and the fixed
`deadline` computed once at creation. -/
structure BcastSt where
  numBroadcasted : Nat
  active : Bool
  sends : List ℚ
  deadline : ℚ
  deriving Repr, DecidableEq

/-- Outcome of one `broadcast(...)` call: the exception raised if any, the
sends performed synchronously by the call itself, and the background job
created if any. -/
structure BcastCallResult where
  error : Option BcastErr
  sends : List ℚ
  job : Option BcastSt
  deriving Repr, DecidableEq

/-- Validation of `broadcast` arguments (main.py 191–192): raise iff
`interval is None and (duration is not None or count is not None)`. -/
def broadcastValidationFails (cfg : BcastCfg) : Bool :=
  !cfg.hasInterval && (cfg.duration ≠ none || cfg.count ≠ none)

/-- One `broadcast(...)` call at time `now0` (main.py 186–223): validate,
check the anonymous precondition, send once immediately, then if
`interval` is given create the periodic job with `num_broadcasted = 1` and
`deadline = now0 + (duration or the 1000-year default)`. -/
def broadcastCall (anonymous : Bool) (immediateSendOk : Bool)
    (cfg : BcastCfg) (now0 : ℚ) : BcastCallResult :=
  if broadcastValidationFails cfg then
    { error := some BcastErr.configError, sends := [], job := none }
  else if anonymous then
    { error := some BcastErr.anonymousError, sends := [], job := none }
  else if !immediateSendOk then
    { error := some BcastErr.sendError, sends := [], job := none }
  else if cfg.hasInterval then
    { error := none
      sends := [now0]
      job := some
        { numBroadcasted := 1
          active := true
          sends := [now0]
          deadline := now0 + cfg.duration.getD NO_DURATION_SECONDS } }
  else
    { error := none, sends := [now0], job := none }

/-- The periodic `process_next` (main.py 208–221), invoked by the scheduler at tick
time `t` while the periodic registration exists; `ok` is whether
`do_broadcast()` returned normally.  On failure the job removes its own
periodic registration without recording a send; on success it increments
`num_broadcasted` **after sending** and removes the registration when the
count is reached or the tick time is at or past the deadline. -/
def process_next (cfg : BcastCfg) (s : BcastSt) (t : ℚ) (ok : Bool) : BcastSt :=
  if s.active = false then s
  else if ok = false then { s with active := false }
  else
    let n := s.numBroadcasted + 1
    let stop :=
      (match cfg.count with
       | some c => decide ((n : Int) ≥ c)
       | none => false) || decide (t ≥ s.deadline)
    { s with numBroadcasted := n, active := !stop, sends := s.sends ++ [t] }

/-- A broadcast job run over a sequence of periodic ticks, each a pair of
tick time and send outcome. -/
def runBcast (cfg : BcastCfg) (s : BcastSt) (ticks : List (ℚ × Bool)) : BcastSt :=
  ticks.foldl (fun s tk => process_next cfg s tk.1 tk.2) s

theorem process_next_deadline (cfg : BcastCfg) (s : BcastSt) (t : ℚ) (ok : Bool) :
    (process_next cfg s t ok).deadline = s.deadline := by
  simp only [process_next]
  split
  · rfl
  · split <;> rfl

theorem runBcast_deadline (cfg : BcastCfg) (ticks : List (ℚ × Bool)) (s : BcastSt) :
    (runBcast cfg s ticks).deadline = s.deadline := by
  induction ticks generalizing s with
  | nil => rfl
  | cons tk ticks ih =>
      show (runBcast cfg (process_next cfg s tk.1 tk.2) ticks).deadline = s.deadline
      rw [ih, process_next_deadline]

/-- Claim C8: A `broadcast` call that supplies `count` or `duration` but no
`interval` raises the configuration error synchronously: no job is
created and no send at all is performed — the error is raised before the
anonymous-node check and before the immediate send is attempted, whatever
their outcomes would have been. -/
theorem broadcast_config_error (anonymous immediateSendOk : Bool)
    (cfg : BcastCfg) (now0 : ℚ) (hno : cfg.hasInterval = false)
    (hterm : cfg.count ≠ none ∨ cfg.duration ≠ none) :
    broadcastCall anonymous immediateSendOk cfg now0 =
      { error := some BcastErr.configError, sends := [], job := none } := by
  have hv : broadcastValidationFails cfg = true := by
    rcases hterm with h | h <;> simp [broadcastValidationFails, hno, h]
  simp [broadcastCall, hv]

/-- Witness for C8: `broadcast(p, count=5)` with no interval, on a
non-anonymous node whose immediate send would have succeeded. -/
theorem broadcast_config_error_witness :
    broadcastCall false true
        { priority := none, hasInterval := false, count := some 5,
          duration := none } 0 =
      { error := some BcastErr.configError, sends := [], job := none } :=
  broadcast_config_error false true
    { priority := none, hasInterval := false, count := some 5, duration := none }
    0 rfl (Or.inl (by decide))

/-! ### Sends relative to the deadline (C3) -/

/-- Number of sends in `l` at or after the deadline `d`. -/
def lateCount (d : ℚ) (l : List ℚ) : Nat :=
  (l.filter (fun t => decide (d ≤ t))).length

theorem lateCount_append (d : ℚ) (l : List ℚ) (t : ℚ) :
    lateCount d (l ++ [t]) = lateCount d l + (if d ≤ t then 1 else 0) := by
  simp only [lateCount, List.filter_append, List.length_append]
  congr 1
  split <;> rename_i h <;> simp [h]

/-- Inductive invariant for C3: while the periodic registration is alive
no send has happened at or after the deadline, and overall at most one
such send ever happens (the one performed by the terminating tick). -/
def BcastLateInv (s : BcastSt) : Prop :=
  (s.active = true → lateCount s.deadline s.sends = 0) ∧
    lateCount s.deadline s.sends ≤ 1

theorem bcastLateInv_step (cfg : BcastCfg) (s : BcastSt) (t : ℚ) (ok : Bool)
    (h : BcastLateInv s) : BcastLateInv (process_next cfg s t ok) := by
  obtain ⟨h1, h2⟩ := h
  cases hact : s.active with
  | false =>
      have : process_next cfg s t ok = s := by simp [process_next, hact]
      rw [this]
      exact ⟨h1, h2⟩
  | true =>
      have h0 := h1 hact
      cases ok with
      | false =>
          have : process_next cfg s t false = { s with active := false } := by
            simp [process_next, hact]
          rw [this]
          exact ⟨by intro hcon; simp at hcon, by simpa using h2⟩
      | true =>
          by_cases hd : s.deadline ≤ t
          · have : process_next cfg s t true =
                { s with numBroadcasted := s.numBroadcasted + 1,
                         active := false,
                         sends := s.sends ++ [t] } := by
              have hge : decide (t ≥ s.deadline) = true := by
                simpa [ge_iff_le] using hd
              simp [process_next, hact, hge]
            rw [this]
            constructor
            · intro hcon
              simp at hcon
            · simp only [lateCount_append, h0, hd, if_pos]
              omega
          · have hactive :
                (process_next cfg s t true).sends = s.sends ++ [t] ∧
                  (process_next cfg s t true).deadline = s.deadline := by
              have hge : decide (t ≥ s.deadline) = false := by
                simpa [ge_iff_le] using hd
              simp [process_next, hact, hge]
            constructor
            · intro _
              rw [hactive.1, hactive.2, lateCount_append, h0, if_neg hd]
            · rw [hactive.1, hactive.2, lateCount_append, h0, if_neg hd]
              omega

theorem bcastLateInv_run (cfg : BcastCfg) (ticks : List (ℚ × Bool)) (s : BcastSt)
    (h : BcastLateInv s) : BcastLateInv (runBcast cfg s ticks) := by
  induction ticks generalizing s with
  | nil => exact h
  | cons tk ticks ih =>
      exact ih _ (bcastLateInv_step cfg s tk.1 tk.2 h)

/-- Any periodic tick at or past the deadline leaves the job with its
periodic registration removed, whether the send succeeded, failed, or the
job was already stopped. -/
theorem process_next_past_deadline (cfg : BcastCfg) (s : BcastSt) (t : ℚ)
    (ok : Bool) (ht : s.deadline ≤ t) :
    (process_next cfg s t ok).active = false := by
  cases hact : s.active with
  | false => simp [process_next, hact]
  | true =>
      cases ok with
      | false => simp [process_next, hact]
      | true =>
          have hge : decide (t ≥ s.deadline) = true := by
            simpa [ge_iff_le] using ht
          simp [process_next, hact, hge]

/-- Claim C3, counterexample: The claim asserts that with
`broadcast(p, interval=i, duration=d)` no send occurs at or after
`now0 + d`.  Concretely, `broadcast(p, interval=1, duration=1)` at
`now0 = 0` creates the job (immediate send at time `0`, deadline `1`);
the periodic tick at time `1` — at the deadline — sends *first* and only
then checks the deadline and stops, so the run's sends are `[0, 1]` and
the send at time `1` is not before `now0 + d = 1`. -/
theorem broadcast_duration_counterexample :
    (broadcastCall false true
        { priority := none, hasInterval := true, count := none,
          duration := some 1 } 0).job =
      some { numBroadcasted := 1, active := true, sends := [0],
             deadline := 0 + 1 } ∧
      (runBcast
          { priority := none, hasInterval := true, count := none,
            duration := some 1 }
          { numBroadcasted := 1, active := true, sends := [0],
            deadline := 0 + 1 } [(1, true)]).sends = [0, 1] ∧
      ¬((1 : ℚ) < 0 + 1) := by
  refine ⟨?_, ?_, by norm_num⟩
  · simp [broadcastCall, broadcastValidationFails]
  · simp [runBcast, process_next]

/-- Claim C3 as amended: For every `broadcast(p, interval=i, duration=d)`
with `d > 0` issued at time `now0`: at most **one** send of `p` occurs at
or after `now0 + d` — the send performed by the terminating tick itself,
since `process_next` sends before checking the deadline — and the job's
periodic registration is removed at the first periodic tick whose time is
at or past `now0 + d` (the stop on a tick at exactly the deadline included),
regardless of any `count` setting and of send failures. -/
theorem broadcast_duration_bounds (cfg : BcastCfg) (d now0 : ℚ) (s0 : BcastSt)
    (hd : 0 < d) (hint : cfg.hasInterval = true) (hdur : cfg.duration = some d)
    (hjob : (broadcastCall false true cfg now0).job = some s0)
    (ticks : List (ℚ × Bool)) :
    lateCount (now0 + d) (runBcast cfg s0 ticks).sends ≤ 1 ∧
      (∀ (t : ℚ) (ok : Bool), now0 + d ≤ t →
        (process_next cfg (runBcast cfg s0 ticks) t ok).active = false) := by
  have hv : broadcastValidationFails cfg = false := by
    simp [broadcastValidationFails, hint]
  have hthis : (broadcastCall false true cfg now0).job =
      some { numBroadcasted := 1, active := true, sends := [now0],
             deadline := now0 + d } := by
    simp [broadcastCall, hv, hint, hdur]
  rw [hthis] at hjob
  have hs0 : s0 =
      { numBroadcasted := 1, active := true, sends := [now0],
        deadline := now0 + d } :=
    (Option.some_inj.mp hjob).symm
  subst hs0
  have hnot : ¬(now0 + d ≤ now0) := by linarith
  have hInit : BcastLateInv
      { numBroadcasted := 1, active := true, sends := [now0],
        deadline := now0 + d } := by
    constructor
    · intro _
      simp [lateCount, hnot]
    · simp [lateCount, hnot]
  have hfin := bcastLateInv_run cfg ticks _ hInit
  have hdl : (runBcast cfg
      { numBroadcasted := 1, active := true, sends := [now0],
        deadline := now0 + d } ticks).deadline = now0 + d := by
    rw [runBcast_deadline]
  refine ⟨?_, ?_⟩
  · have h2 := hfin.2
    rwa [hdl] at h2
  · intro t ok ht
    apply process_next_past_deadline
    rw [hdl]
    exact ht

/-- Witness for the amended C3: `broadcast(p, interval=1, duration=1)` at
`now0 = 0`, with no periodic tick yet. -/
theorem broadcast_duration_bounds_witness :
    lateCount ((0 : ℚ) + 1)
        (runBcast
          { priority := none, hasInterval := true, count := none,
            duration := some 1 }
          { numBroadcasted := 1, active := true, sends := [0],
            deadline := 0 + 1 } []).sends ≤ 1 :=
  (broadcast_duration_bounds
      { priority := none, hasInterval := true, count := none,
        duration := some 1 } 1 0
      { numBroadcasted := 1, active := true, sends := [0], deadline := 0 + 1 }
      (by norm_num) rfl rfl (by simp [broadcastCall, broadcastValidationFails])
      []).1

/-! ### Exact send counts for count-terminated broadcasts (C4) -/

/-- Inductive invariant for a count-`n` broadcast job under successful
sends before the deadline: the send list matches `num_broadcasted`, which
stays in `[1, max n 2]`; the registration is alive exactly while the
count is not yet reached (with `num_broadcasted = 1` alive even when
`n = 1`, because the count is only checked after a periodic send); and a
stopped job has sent exactly `max n 2` times. -/
def BcastCountInv (n : Int) (s : BcastSt) : Prop :=
  s.sends.length = s.numBroadcasted ∧
    1 ≤ s.numBroadcasted ∧
    (s.numBroadcasted : Int) ≤ max n 2 ∧
    (s.active = true ↔ ((s.numBroadcasted : Int) < n ∨ s.numBroadcasted = 1)) ∧
    (s.active = false → (s.numBroadcasted : Int) = max n 2)

theorem bcastCountInv_step (cfg : BcastCfg) (n : Int) (hcount : cfg.count = some n)
    (hn : 1 ≤ n) (s : BcastSt) (t : ℚ) (ht : t < s.deadline)
    (h : BcastCountInv n s) :
    BcastCountInv n (process_next cfg s t true) ∧
      ((process_next cfg s t true).numBroadcasted : Int) =
        min ((s.numBroadcasted : Int) + 1) (max n 2) := by
  obtain ⟨hlen, hpos, hle, hiff, hterm⟩ := h
  cases hact : s.active with
  | false =>
      have heq : process_next cfg s t true = s := by simp [process_next, hact]
      rw [heq]
      have hmax := hterm hact
      exact ⟨⟨hlen, hpos, hle, hiff, hterm⟩, by omega⟩
  | true =>
      have hcase := hiff.mp hact
      have hgedec : decide (t ≥ s.deadline) = false := by
        simp [ge_iff_le]
        linarith
      by_cases hstop : n ≤ ((s.numBroadcasted + 1 : Nat) : Int)
      · have hdec : decide (((s.numBroadcasted + 1 : Nat) : Int) ≥ n) = true := by
          rw [decide_eq_true_eq]
          exact hstop
        have heq : process_next cfg s t true =
            { s with numBroadcasted := s.numBroadcasted + 1, active := false,
                     sends := s.sends ++ [t] } := by
          simp only [process_next, hact, hcount, hgedec, hdec]
          simp
        rw [heq]
        push_cast at hstop
        refine ⟨⟨?_, ?_, ?_, ?_, ?_⟩, ?_⟩
        · show (s.sends ++ [t]).length = s.numBroadcasted + 1
          simp [hlen]
        · show 1 ≤ s.numBroadcasted + 1
          omega
        · show ((s.numBroadcasted + 1 : Nat) : Int) ≤ max n 2
          push_cast
          omega
        · show (false = true) ↔
            (((s.numBroadcasted + 1 : Nat) : Int) < n ∨ s.numBroadcasted + 1 = 1)
          constructor
          · intro hcon
            exact absurd hcon (by simp)
          · intro hcon
            exfalso
            push_cast at hcon
            omega
        · intro _
          show ((s.numBroadcasted + 1 : Nat) : Int) = max n 2
          push_cast
          omega
        · show ((s.numBroadcasted + 1 : Nat) : Int) =
            min ((s.numBroadcasted : Int) + 1) (max n 2)
          push_cast
          omega
      · have hdec : decide (((s.numBroadcasted + 1 : Nat) : Int) ≥ n) = false := by
          rw [decide_eq_false_iff_not]
          exact hstop
        have heq : process_next cfg s t true =
            { s with numBroadcasted := s.numBroadcasted + 1, active := true,
                     sends := s.sends ++ [t] } := by
          simp only [process_next, hact, hcount, hgedec, hdec]
          simp
        rw [heq]
        push_cast at hstop
        refine ⟨⟨?_, ?_, ?_, ?_, ?_⟩, ?_⟩
        · show (s.sends ++ [t]).length = s.numBroadcasted + 1
          simp [hlen]
        · show 1 ≤ s.numBroadcasted + 1
          omega
        · show ((s.numBroadcasted + 1 : Nat) : Int) ≤ max n 2
          push_cast
          omega
        · show (true = true) ↔
            (((s.numBroadcasted + 1 : Nat) : Int) < n ∨ s.numBroadcasted + 1 = 1)
          simp only [true_iff]
          left
          push_cast
          omega
        · intro hcon
          exact absurd hcon (by simp)
        · show ((s.numBroadcasted + 1 : Nat) : Int) =
            min ((s.numBroadcasted : Int) + 1) (max n 2)
          push_cast
          omega

theorem bcastCount_run (cfg : BcastCfg) (n : Int) (hcount : cfg.count = some n)
    (hn : 1 ≤ n) (ticks : List (ℚ × Bool)) :
    ∀ s : BcastSt, (∀ tk ∈ ticks, tk.2 = true ∧ tk.1 < s.deadline) →
      BcastCountInv n s →
      BcastCountInv n (runBcast cfg s ticks) ∧
        ((runBcast cfg s ticks).numBroadcasted : Int) =
          min ((s.numBroadcasted : Int) + ticks.length) (max n 2) := by
  induction ticks with
  | nil =>
      intro s _ h
      refine ⟨h, ?_⟩
      obtain ⟨_, hpos, hle, _, _⟩ := h
      have hnil : runBcast cfg s [] = s := rfl
      rw [hnil]
      simp only [List.length_nil, Nat.cast_zero, add_zero]
      omega
  | cons tk ticks ih =>
      intro s hticks h
      obtain ⟨hok, hlt⟩ := hticks tk (List.mem_cons_self tk ticks)
      have hstep := bcastCountInv_step cfg n hcount hn s tk.1 hlt h
      have hrw : runBcast cfg s (tk :: ticks) =
          runBcast cfg (process_next cfg s tk.1 tk.2) ticks := rfl
      rw [hrw, hok]
      have hdl : (process_next cfg s tk.1 true).deadline = s.deadline :=
        process_next_deadline cfg s tk.1 true
      have hticks' : ∀ tk' ∈ ticks,
          tk'.2 = true ∧ tk'.1 < (process_next cfg s tk.1 true).deadline := by
        intro tk' h'
        obtain ⟨h1, h2⟩ := hticks tk' (List.mem_cons_of_mem _ h')
        exact ⟨h1, by rwa [hdl]⟩
      obtain ⟨hinv', hnum'⟩ := hstep
      obtain ⟨hfin, hnum⟩ := ih (process_next cfg s tk.1 true) hticks' hinv'
      refine ⟨hfin, ?_⟩
      rw [hnum, hnum']
      simp only [List.length_cons]
      push_cast
      omega

/-- Claim C4, counterexample: The claim asserts that
`broadcast(p, interval=i, count=n)` with `n ≥ 1` performs exactly `n`
sends.  Concretely, `broadcast(p, interval=1, count=1)` at `now0 = 0`
already sends once at call time, yet registers the periodic job with
`num_broadcasted = 1` and no creation-time count check; the first
periodic tick sends again before checking the count, so **two** sends
occur, after which the job stops. -/
theorem broadcast_count_one_counterexample :
    (broadcastCall false true
        { priority := none, hasInterval := true, count := some 1,
          duration := none } 0).job =
      some { numBroadcasted := 1, active := true, sends := [0],
             deadline := 0 + NO_DURATION_SECONDS } ∧
      (runBcast
          { priority := none, hasInterval := true, count := some 1,
            duration := none }
          { numBroadcasted := 1, active := true, sends := [0],
            deadline := 0 + NO_DURATION_SECONDS } [(1, true)]).sends.length
          = 2 ∧
      (runBcast
          { priority := none, hasInterval := true, count := some 1,
            duration := none }
          { numBroadcasted := 1, active := true, sends := [0],
            deadline := 0 + NO_DURATION_SECONDS } [(1, true)]).active
          = false := by
  refine ⟨by simp [broadcastCall, broadcastValidationFails], ?_, ?_⟩ <;>
    simp [runBcast, process_next, NO_DURATION_SECONDS]

/-- Claim C4 as amended: For every `broadcast(p, interval=i, count=n)` with
`n ≥ 1` and no `duration`, assuming no send failure and no manual
`remove()` and enough periodic ticks (all before the 1000-year default
deadline): exactly `max n 2` sends of `p` occur in total, after which the
job is TERMINATED and its periodic registration removed.  For `n ≥ 2`
this is the claimed `n` (1 immediate + `n-1` periodic); for `n = 1` it is
2, because the count is only checked after a periodic send, so the first
tick sends once more. -/
theorem broadcast_count_sends (cfg : BcastCfg) (n : Int) (s0 : BcastSt)
    (now0 : ℚ) (hn : 1 ≤ n) (hint : cfg.hasInterval = true)
    (hcount : cfg.count = some n) (hdur : cfg.duration = none)
    (hjob : (broadcastCall false true cfg now0).job = some s0)
    (ticks : List (ℚ × Bool))
    (hticks : ∀ tk ∈ ticks, tk.2 = true ∧ tk.1 < now0 + NO_DURATION_SECONDS)
    (hlen : max n 2 - 1 ≤ (ticks.length : Int)) :
    ((runBcast cfg s0 ticks).sends.length : Int) = max n 2 ∧
      (runBcast cfg s0 ticks).active = false := by
  have hv : broadcastValidationFails cfg = false := by
    simp [broadcastValidationFails, hint]
  have hthis : (broadcastCall false true cfg now0).job =
      some { numBroadcasted := 1, active := true, sends := [now0],
             deadline := now0 + NO_DURATION_SECONDS } := by
    simp [broadcastCall, hv, hint, hdur]
  rw [hthis] at hjob
  have hs0 := (Option.some_inj.mp hjob).symm
  subst hs0
  have hInit : BcastCountInv n
      { numBroadcasted := 1, active := true, sends := [now0],
        deadline := now0 + NO_DURATION_SECONDS } := by
    refine ⟨rfl, le_refl 1, ?_, ?_, ?_⟩
    · show ((1 : Nat) : Int) ≤ max n 2
      push_cast
      omega
    · show (true = true) ↔ (((1 : Nat) : Int) < n ∨ (1 : Nat) = 1)
      simp
    · intro hcon
      exact absurd hcon (by simp)
  obtain ⟨hfin, hnum⟩ := bcastCount_run cfg n hcount hn ticks _ hticks hInit
  obtain ⟨hlen1, hpos, hle, hiff, hterm⟩ := hfin
  have hnumM : ((runBcast cfg
      { numBroadcasted := 1, active := true, sends := [now0],
        deadline := now0 + NO_DURATION_SECONDS } ticks).numBroadcasted : Int) =
      max n 2 := by
    rw [hnum]
    push_cast
    omega
  have hact : (runBcast cfg
      { numBroadcasted := 1, active := true, sends := [now0],
        deadline := now0 + NO_DURATION_SECONDS } ticks).active = false := by
    cases hactv : (runBcast cfg
        { numBroadcasted := 1, active := true, sends := [now0],
          deadline := now0 + NO_DURATION_SECONDS } ticks).active
    · rfl
    · exfalso
      have hd := hiff.mp hactv
      omega
  refine ⟨?_, hact⟩
  rw [hlen1]
  exact hnumM

/-- Witness for the amended C4: `broadcast(p, interval=1, count=3)` at
`now0 = 0` with successful ticks at times `1` and `2` — three sends and a
stopped job. -/
theorem broadcast_count_sends_witness :
    ((runBcast
        { priority := none, hasInterval := true, count := some 3,
          duration := none }
        { numBroadcasted := 1, active := true, sends := [0],
          deadline := 0 + NO_DURATION_SECONDS }
        [(1, true), (2, true)]).sends.length : Int) = max 3 2 :=
  (broadcast_count_sends
      { priority := none, hasInterval := true, count := some 3,
        duration := none } 3
      { numBroadcasted := 1, active := true, sends := [0],
        deadline := 0 + NO_DURATION_SECONDS } 0
      (by norm_num) rfl rfl rfl
      (by simp [broadcastCall, broadcastValidationFails])
      [(1, true), (2, true)]
      (by
        intro tk htk
        have hcases : tk = ((1 : ℚ), true) ∨ tk = ((2 : ℚ), true) := by
          simpa using htk
        rcases hcases with rfl | rfl <;>
          exact ⟨rfl, by norm_num [NO_DURATION_SECONDS]⟩)
      (by norm_num)).1

/-! ## The spin scheduler (`MainWindow._spin_node`, main.py lines 324–330)

A repeating 10 ms `QTimer` invokes `_spin_node` on every tick; its body is
`try: self._node.spin(0) except Exception: logger.error(...)`.  We model
one tick by the outcome of the `spin(0)` call it makes and a scheduler run
by the list of outcomes of the consecutive ticks. -/

/-- Body of `_spin_node` on one tick, given the outcome of `spin(0)`:
an error is caught and logged (`true`) and never re-raised; a normal
return logs nothing (`false`).  The function always returns, so the
repeating timer proceeds to the next tick either way. -/
def spin_node_tick (r : Except String Unit) : Bool :=
  match r with
  | Except.ok _ => false
  | Except.error _ => true

/-- Observable state of a scheduler run: how many ticks invoked `spin`
and how many errors were logged. -/
structure SpinSchedSt where
  ticksRun : Nat
  errorsLogged : Nat
  deriving Repr, DecidableEq

/-- The spin scheduler over a list of per-tick `spin(0)` outcomes: every
tick runs `_spin_node` on its outcome and the run continues with the next
tick regardless. -/
def runSpinScheduler (rs : List (Except String Unit)) : SpinSchedSt :=
  rs.foldl
    (fun s r =>
      { ticksRun := s.ticksRun + 1
        errorsLogged := s.errorsLogged + (if spin_node_tick r then 1 else 0) })
    { ticksRun := 0, errorsLogged := 0 }

theorem runSpinScheduler_general (rs : List (Except String Unit))
    (s : SpinSchedSt) :
    (rs.foldl
        (fun s r =>
          { ticksRun := s.ticksRun + 1
            errorsLogged :=
              s.errorsLogged + (if spin_node_tick r then 1 else 0) })
        s).ticksRun = s.ticksRun + rs.length ∧
      (rs.foldl
          (fun s r =>
            { ticksRun := s.ticksRun + 1
              errorsLogged :=
                s.errorsLogged + (if spin_node_tick r then 1 else 0) })
          s).errorsLogged =
        s.errorsLogged + (rs.filter spin_node_tick).length := by
  induction rs generalizing s with
  | nil => simp
  | cons r rs ih =>
      simp only [List.foldl_cons, List.filter_cons]
      obtain ⟨ih1, ih2⟩ := ih
        { ticksRun := s.ticksRun + 1
          errorsLogged := s.errorsLogged + (if spin_node_tick r then 1 else 0) }
      refine ⟨by rw [ih1]; simp; omega, ?_⟩
      rw [ih2]
      cases h : spin_node_tick r <;> simp [h] <;> omega

/-- Claim C9: Whatever the per-tick outcomes of `spin(0)` are, every
scheduled tick invokes `spin`: a failing tick is caught and logged (the
run logs exactly one error per failing outcome) and does not prevent any
subsequent tick from running, so the number of ticks that ran equals the
full length of the outcome sequence — the spin loop is never halted by a
single-tick transport error. -/
theorem spin_errors_do_not_halt_loop (rs : List (Except String Unit)) :
    (runSpinScheduler rs).ticksRun = rs.length ∧
      (runSpinScheduler rs).errorsLogged = (rs.filter spin_node_tick).length := by
  have h := runSpinScheduler_general rs { ticksRun := 0, errorsLogged := 0 }
  simpa [runSpinScheduler] using h

/-! ## Priority defaulting (`request`, main.py 148–154; `do_broadcast`,
main.py 197–198)

Both paths compute the transfer priority as
`priority or default_transfer_priority`, with Python's `or` treating the
integer `0` as falsy. -/

/-- The `request(payload, server_node_id, callback, priority, timeout)`
console primitive restricted to its observable effect on the transport:
raise the anonymous-node error, or forward
`priority or default_transfer_priority` to `node.request`. -/
def requestCall (anonymous : Bool) (priority : Option Int) : Except String Int :=
  if anonymous then Except.error "anonymous node"
  else Except.ok (pyOrInt priority default_transfer_priority)

/-- Claim C10: In both `request` and `broadcast`, an explicitly supplied
priority of `0` is treated like an unset priority: Python's `or` sees the
falsy `0` and substitutes `default_transfer_priority = 30` before the
value reaches the transport; only non-zero priorities are forwarded as
given (and an unset priority also becomes 30). -/
theorem priority_zero_defaulted (v : Int) (hv : v ≠ 0) :
    requestCall false (some 0) = Except.ok default_transfer_priority ∧
      requestCall false none = Except.ok default_transfer_priority ∧
      requestCall false (some v) = Except.ok v ∧
      (∀ cfg : BcastCfg, cfg.priority = some 0 →
        do_broadcast_priority cfg = default_transfer_priority) ∧
      (∀ cfg : BcastCfg, cfg.priority = none →
        do_broadcast_priority cfg = default_transfer_priority) ∧
      (∀ cfg : BcastCfg, cfg.priority = some v →
        do_broadcast_priority cfg = v) := by
  refine ⟨rfl, rfl, ?_, ?_, ?_, ?_⟩
  · simp [requestCall, pyOrInt, hv]
  · intro cfg h
    simp [do_broadcast_priority, pyOrInt, h]
  · intro cfg h
    simp [do_broadcast_priority, pyOrInt, h]
  · intro cfg h
    simp [do_broadcast_priority, pyOrInt, h, hv]

/-- Witness for C10 at the non-zero priority `7`. -/
theorem priority_zero_defaulted_witness :
    requestCall false (some 7) = Except.ok 7 :=
  (priority_zero_defaulted 7 (by decide)).2.2.1

/-! ## The live-state cache (`JigMonitor`, jig_panel.py lines 29–59)

`JigMonitor` keeps `self._modules`, a Python dict from device id to the
latest received status event (insertion-ordered, overwritten in place),
and one single-shot `QTimer`.  `jig_status_callback` stores the event,
restarts the timer with `start(1500)` — 1500 **milliseconds**, i.e. 1.5 s,
not `TIMEOUT` — and sweeps immediately; `check_for_stale` deletes every
entry with `e.transfer.ts_monotonic + TIMEOUT < time.monotonic()`;
`find_all` yields the entries satisfying a predicate, with no staleness
check of its own.  Events carry the receipt timestamp; we model a record
by its id and that timestamp, and the single-shot timer by the time it is
due to fire, if any. -/

/-- The part of a received status event the cache logic reads:
`event.message.id` and `event.transfer.ts_monotonic`. -/
structure JigEventRec where
  nid : Nat
  ts : ℚ
  deriving Repr, DecidableEq

/-- The constant `JigMonitor.TIMEOUT` (jig_panel.py 30): 2 seconds. -/
def TIMEOUT : ℚ := 2

/-- The restart interval of the single-shot timer:
`self._timer.start(1500)` (jig_panel.py 44) — 1500 ms = 1.5 s. -/
def JIG_TIMER_INTERVAL : ℚ := 3 / 2

/-- State of one `JigMonitor`: the id → latest-event mapping (an
insertion-ordered association list, as a Python dict) and the time the
single-shot timer is due to fire, if it is running. -/
structure JigSt where
  modules : List (Nat × JigEventRec)
  timerDeadline : Option ℚ
  deriving Repr, DecidableEq

/-- The sweep `check_for_stale` (jig_panel.py 56–59) at current time `now`: delete
every entry with `e.transfer.ts_monotonic + TIMEOUT < now`. -/
def check_for_stale (now : ℚ) (m : List (Nat × JigEventRec)) :
    List (Nat × JigEventRec) :=
  m.filter (fun p => !decide (p.2.ts + TIMEOUT < now))

/-- Python dict assignment `m[k] = v`: overwrite in place when the key is
present (keeping insertion order), append otherwise. -/
def dictSet (m : List (Nat × JigEventRec)) (k : Nat) (v : JigEventRec) :
    List (Nat × JigEventRec) :=
  if m.any (fun p => p.1 = k) then
    m.map (fun p => if p.1 = k then (k, v) else p)
  else
    m ++ [(k, v)]

/-- The receipt handler `jig_status_callback(event)` (jig_panel.py 40–45) for a receipt of id
`nid` at time `now`: store the event, stop and restart the single-shot
timer to fire 1.5 s from now, and sweep immediately. -/
def jig_status_callback (s : JigSt) (now : ℚ) (nid : Nat) : JigSt :=
  { modules := check_for_stale now (dictSet s.modules nid { nid := nid, ts := now })
    timerDeadline := some (now + JIG_TIMER_INTERVAL) }

/-- The query `find_all(predicate)` (jig_panel.py 47–54): the entries whose event
satisfies the predicate, in mapping order; it never consults timestamps. -/
def find_all (s : JigSt) (p : JigEventRec → Bool) : List JigEventRec :=
  (s.modules.filter (fun q => p q.2)).map Prod.snd

/-- Events a `JigMonitor` experiences: receipt of a status message for
id `nid` at time `t`, or the firing of the single-shot timer at time `t`
(which only happens while the timer is running and due at exactly `t`,
and consumes the single-shot registration before sweeping). -/
inductive JigEv where
  | recv (nid : Nat) (t : ℚ)
  | fire (t : ℚ)
  deriving Repr, DecidableEq

def stepJig (s : JigSt) (ev : JigEv) : JigSt :=
  match ev with
  | JigEv.recv nid t => jig_status_callback s t nid
  | JigEv.fire t =>
      if s.timerDeadline = some t then
        { modules := check_for_stale t s.modules, timerDeadline := none }
      else s

def runJig (s : JigSt) (evs : List JigEv) : JigSt :=
  evs.foldl stepJig s

/-- A `JigMonitor` as constructed (jig_panel.py 31–38): empty mapping,
timer not running. -/
def initJig : JigSt :=
  { modules := [], timerDeadline := none }

theorem mem_check_for_stale (now : ℚ) (m : List (Nat × JigEventRec))
    (q : Nat × JigEventRec) :
    q ∈ check_for_stale now m ↔ q ∈ m ∧ ¬(q.2.ts + TIMEOUT < now) := by
  rw [check_for_stale, List.mem_filter]
  simp

theorem mem_dictSet_of_ne (m : List (Nat × JigEventRec)) (k k' : Nat)
    (v v' : JigEventRec) (h : k' ≠ k) :
    ((k', v') ∈ dictSet m k v) ↔ (k', v') ∈ m := by
  unfold dictSet
  split
  · constructor
    · intro hm
      rw [List.mem_map] at hm
      obtain ⟨p, hp, heq⟩ := hm
      by_cases hpk : p.1 = k
      · rw [if_pos hpk] at heq
        exact absurd (congrArg Prod.fst heq) (Ne.symm h)
      · rw [if_neg hpk] at heq
        rwa [heq] at hp
    · intro hm
      rw [List.mem_map]
      refine ⟨(k', v'), hm, ?_⟩
      rw [if_neg (by simpa using h)]
  · rw [List.mem_append]
    constructor
    · rintro (hm | hm)
      · exact hm
      · exfalso
        rw [List.mem_singleton] at hm
        exact h (congrArg Prod.fst hm)
    · exact Or.inl

theorem mem_dictSet_self (m : List (Nat × JigEventRec)) (k : Nat)
    (v : JigEventRec) : (k, v) ∈ dictSet m k v := by
  unfold dictSet
  split
  · next hany =>
      rw [List.any_eq_true] at hany
      obtain ⟨p, hp, hpk⟩ := hany
      rw [List.mem_map]
      refine ⟨p, hp, ?_⟩
      rw [if_pos (by simpa using hpk)]
  · simp

/-- Claim C6, counterexample: The claim asserts that a sweep removes every
entry whose age is `≥ TIMEOUT`.  Concretely, sweeping at `now = 2` a
mapping holding a record received at time `0` — age exactly
`TIMEOUT = 2` — retains the record, because `check_for_stale` deletes
only on the strict comparison `ts + TIMEOUT < now`. -/
theorem check_for_stale_boundary_counterexample :
    check_for_stale 2 [(1, { nid := 1, ts := 0 })] =
        [(1, { nid := 1, ts := 0 })] ∧
      TIMEOUT ≤ (2 : ℚ) - 0 := by
  constructor
  · norm_num [check_for_stale, TIMEOUT]
  · norm_num [TIMEOUT]

/-- Claim C6 as amended: Immediately after every sweep of the live-state
cache — whether run by `jig_status_callback` on a receipt or by the
single-shot timer firing — every record still retained satisfies
`now - receivedAtMonotonic ≤ TIMEOUT` (non-strict); equivalently, a sweep
removes exactly the entries whose age at sweep time is strictly greater
than `TIMEOUT`, retaining an entry of age exactly `TIMEOUT`. -/
theorem check_for_stale_characterization :
    (∀ (now : ℚ) (m : List (Nat × JigEventRec)) (q : Nat × JigEventRec),
        q ∈ check_for_stale now m ↔ (q ∈ m ∧ now - q.2.ts ≤ TIMEOUT)) ∧
      (∀ (s : JigSt) (nid : Nat) (t : ℚ) (q : Nat × JigEventRec),
        q ∈ (stepJig s (JigEv.recv nid t)).modules → t - q.2.ts ≤ TIMEOUT) ∧
      (∀ (s : JigSt) (t : ℚ) (q : Nat × JigEventRec),
        s.timerDeadline = some t → q ∈ (stepJig s (JigEv.fire t)).modules →
          t - q.2.ts ≤ TIMEOUT) := by
  have hchar : ∀ (now : ℚ) (m : List (Nat × JigEventRec)) (q : Nat × JigEventRec),
      q ∈ check_for_stale now m ↔ (q ∈ m ∧ now - q.2.ts ≤ TIMEOUT) := by
    intro now m q
    rw [mem_check_for_stale]
    constructor
    · rintro ⟨hq, hp⟩
      exact ⟨hq, by linarith [not_lt.mp hp]⟩
    · rintro ⟨hq, hle⟩
      exact ⟨hq, not_lt.mpr (by linarith)⟩
  refine ⟨hchar, ?_, ?_⟩
  · intro s nid t q hq
    have : q ∈ check_for_stale t (dictSet s.modules nid { nid := nid, ts := t }) :=
      hq
    exact ((hchar t _ q).mp this).2
  · intro s t q hdl hq
    have hmods : (stepJig s (JigEv.fire t)).modules = check_for_stale t s.modules := by
      simp [stepJig, hdl]
    rw [hmods] at hq
    exact ((hchar t _ q).mp hq).2

/-- Witness for the amended C6: the record stored by a receipt at time
`0` on a fresh monitor has age `0 ≤ TIMEOUT` right after the sweep that
the receipt runs. -/
theorem check_for_stale_characterization_witness :
    (0 : ℚ) - 0 ≤ TIMEOUT :=
  check_for_stale_characterization.2.1 initJig 1 0
    (1, { nid := 1, ts := 0 })
    (by norm_num [stepJig, jig_status_callback, initJig, dictSet,
      check_for_stale, TIMEOUT])

/-- Claim C5, counterexample: The claim asserts that with `TIMEOUT = T`,
after a receipt for id `X` at `t0` and no further receipt for `X`, the
record is absent at every query time `t ≥ t0 + T`, because each receipt
restarts the rolling timer to fire `T` later.  Concretely: receipt for
id `1` at `t0 = 0` starts the single-shot timer to fire at `1.5` (1500 ms,
not `T = 2`); when it fires, the record's age is `1.5 ≤ TIMEOUT`, so the
sweep retains it, and the timer is now consumed (`timerDeadline = none`).
The state then never changes again without a receipt, so a query at time
`10 ≥ t0 + T` still sees the record. -/
theorem jig_retention_counterexample :
    (runJig initJig [JigEv.recv 1 0, JigEv.fire (3 / 2)]).modules =
        [(1, { nid := 1, ts := 0 })] ∧
      (runJig initJig [JigEv.recv 1 0, JigEv.fire (3 / 2)]).timerDeadline = none ∧
      TIMEOUT ≤ (10 : ℚ) - 0 := by
  refine ⟨?_, ?_, by norm_num [TIMEOUT]⟩ <;>
    norm_num [runJig, stepJig, jig_status_callback, initJig, dictSet,
      check_for_stale, TIMEOUT, JIG_TIMER_INTERVAL]

/-- Claim C5 as amended: For the live-state cache with `TIMEOUT = T`: a
record for id `X` received at `t0` survives every sweep at a time
`t ≤ t0 + T` (receipts for other ids and timer firings alike), and a
sweep at a time `t > t0 + T` removes it; but sweeps happen **only** on
receipts and on the single-shot timer, which each receipt restarts to
fire `1.5` s after it (not `T`), and which does not reschedule itself —
so when the timer is not running no sweep happens at all and the state is
unchanged, meaning absence at times `≥ t0 + T` is not guaranteed without
further receipts.  A fresh receipt for `X` at `t1` overwrites the record
with timestamp `t1` and restarts the timer to `t1 + 1.5`; a timer firing
consumes the registration. -/
theorem jig_retention_qualified (s : JigSt) (X : Nat) (e : JigEventRec) :
    (∀ (nid : Nat) (t : ℚ), (X, e) ∈ s.modules → nid ≠ X → t ≤ e.ts + TIMEOUT →
        (X, e) ∈ (stepJig s (JigEv.recv nid t)).modules) ∧
      (∀ t : ℚ, (X, e) ∈ s.modules → t ≤ e.ts + TIMEOUT →
        (X, e) ∈ (stepJig s (JigEv.fire t)).modules) ∧
      (∀ (nid : Nat) (t : ℚ), nid ≠ X →
        (∀ e' : JigEventRec, (X, e') ∈ s.modules → e'.ts + TIMEOUT < t) →
        (X, e) ∉ (stepJig s (JigEv.recv nid t)).modules) ∧
      (∀ t : ℚ, s.timerDeadline = some t →
        (∀ e' : JigEventRec, (X, e') ∈ s.modules → e'.ts + TIMEOUT < t) →
        (X, e) ∉ (stepJig s (JigEv.fire t)).modules) ∧
      (∀ t : ℚ, s.timerDeadline = none → stepJig s (JigEv.fire t) = s) ∧
      (∀ t : ℚ,
        (X, ({ nid := X, ts := t } : JigEventRec)) ∈
            (stepJig s (JigEv.recv X t)).modules ∧
          (stepJig s (JigEv.recv X t)).timerDeadline =
            some (t + JIG_TIMER_INTERVAL)) ∧
      (∀ t : ℚ, s.timerDeadline = some t →
        (stepJig s (JigEv.fire t)).timerDeadline = none) := by
  refine ⟨?_, ?_, ?_, ?_, ?_, ?_, ?_⟩
  · intro nid t hmem hne hle
    show (X, e) ∈ check_for_stale t (dictSet s.modules nid { nid := nid, ts := t })
    rw [mem_check_for_stale]
    exact ⟨(mem_dictSet_of_ne _ _ _ _ _ (Ne.symm hne)).mpr hmem,
      not_lt.mpr (by linarith)⟩
  · intro t hmem hle
    by_cases hdl : s.timerDeadline = some t
    · have hmods : (stepJig s (JigEv.fire t)).modules =
          check_for_stale t s.modules := by
        simp [stepJig, hdl]
      rw [hmods, mem_check_for_stale]
      exact ⟨hmem, not_lt.mpr (by linarith)⟩
    · have hid : stepJig s (JigEv.fire t) = s := by
        simp [stepJig, hdl]
      rw [hid]
      exact hmem
  · intro nid t hne hall hin
    have hin' : (X, e) ∈
        check_for_stale t (dictSet s.modules nid { nid := nid, ts := t }) := hin
    rw [mem_check_for_stale] at hin'
    exact hin'.2 (hall e ((mem_dictSet_of_ne _ _ _ _ _ (Ne.symm hne)).mp hin'.1))
  · intro t hdl hall hin
    have hmods : (stepJig s (JigEv.fire t)).modules =
        check_for_stale t s.modules := by
      simp [stepJig, hdl]
    rw [hmods, mem_check_for_stale] at hin
    exact hin.2 (hall e hin.1)
  · intro t hdl
    simp [stepJig, hdl]
  · intro t
    constructor
    · show (X, ({ nid := X, ts := t } : JigEventRec)) ∈
        check_for_stale t (dictSet s.modules X { nid := X, ts := t })
      rw [mem_check_for_stale]
      refine ⟨mem_dictSet_self _ _ _, not_lt.mpr ?_⟩
      norm_num [TIMEOUT]
    · rfl
  · intro t hdl
    simp [stepJig, hdl]

/-- Witness for the amended C5: a record for id `1` received at time `0`
survives a receipt for id `2` at time `1` (within the window). -/
theorem jig_retention_qualified_witness :
    ((1 : Nat), ({ nid := 1, ts := 0 } : JigEventRec)) ∈
      (stepJig { modules := [(1, { nid := 1, ts := 0 })], timerDeadline := none }
        (JigEv.recv 2 1)).modules :=
  (jig_retention_qualified
      { modules := [(1, { nid := 1, ts := 0 })], timerDeadline := none } 1
      { nid := 1, ts := 0 }).1 2 1 (by simp) (by decide)
    (by norm_num [TIMEOUT])

end GuiTool
